import Mathlib

/-!
Verification of the Louvain community-detection core
(`src/louvain.hxx` of puzzlef/louvain-static-vs-dynamic).

The C++ code is shallowly embedded: the graph container becomes a
structure with a span, a list of live vertex keys and an adjacency
function; `std::vector`s indexed by vertex/community keys become total
functions `Nat → _` mutated with `Function.update`; the scratch list
`vcs` becomes a `List Nat`; edge weights and modularity values use `ℚ`.
Each `louvain*` definition mirrors the body of the C++ function of the
same name.
-/

namespace Louvain

/-- A weighted graph as the solver consumes it: `span` is the size of the
key space, `verts` the live vertex keys in enumeration order, and
`adj u` the outgoing `(neighbor, weight)` pairs of `u`. -/
structure Graph where
  span : Nat
  verts : List Nat
  adj : Nat → List (Nat × ℚ)

/-- Modelled from the spec: `deltaModularity` lives in `modularity.hxx`,
which is not among the repository files; §4.C of the spec gives its
formula `ΔQ = (k_uc - k_ud)/M - R·vtot_u·(ctot_c - ctot_d + vtot_u)/(2M²)`. -/
def deltaModularity (vcoutc vcoutd vtotu ctotc ctotd M R : ℚ) : ℚ :=
  (vcoutc - vcoutd) / M - R * vtotu * (ctotc - ctotd + vtotu) / (2 * M ^ 2)

/-- Embeds `louvainInitialize`: for each live `u`, set `vcom[u] = u` and
`ctot[u] = vtot[u]`; both vectors start zero-initialized. -/
def louvainInitialize (x : Graph) (vtot : Nat → ℚ) : (Nat → Nat) × (Nat → ℚ) :=
  x.verts.foldl
    (fun p u => (Function.update p.1 u u, Function.update p.2 u (vtot u)))
    (fun _ => 0, fun _ => 0)

/-- One edge step of `louvainScanCommunities`: skip the self edge unless
`SELF`, else let `c = vcom[v]`; append `c` to `vcs` when `vcout[c]` is
zero, then add the weight to `vcout[c]`. -/
def louvainScanStep (SELF : Bool) (u : Nat) (vcom : Nat → Nat)
    (p : List Nat × (Nat → ℚ)) (vw : Nat × ℚ) : List Nat × (Nat → ℚ) :=
  if SELF = false ∧ u = vw.1 then p
  else
    let c := vcom vw.1
    (if p.2 c = 0 then p.1 ++ [c] else p.1,
     Function.update p.2 c (p.2 c + vw.2))

/-- Embeds `louvainScanCommunities`: fold `louvainScanStep` over the
edges of `u`. -/
def louvainScanCommunities (SELF : Bool) (vcs : List Nat) (vcout : Nat → ℚ)
    (x : Graph) (u : Nat) (vcom : Nat → Nat) : List Nat × (Nat → ℚ) :=
  (x.adj u).foldl (louvainScanStep SELF u vcom) (vcs, vcout)

/-- Embeds `louvainClearScan`: zero `vcout` at every id in `vcs`, then
empty `vcs`. -/
def louvainClearScan (vcs : List Nat) (vcout : Nat → ℚ) :
    List Nat × (Nat → ℚ) :=
  ([], vcs.foldl (fun vo c => Function.update vo c 0) vcout)

/-- One candidate step of `louvainChooseCommunity`: skip `c = d` unless
`SELF`, else compute the delta modularity `e` and keep `(c, e)` when `e`
strictly exceeds the best so far. -/
def louvainChooseStep (SELF : Bool) (u d : Nat) (vtot ctot : Nat → ℚ)
    (vcout : Nat → ℚ) (M R : ℚ) (p : Nat × ℚ) (c : Nat) : Nat × ℚ :=
  if SELF = false ∧ c = d then p
  else
    let e := deltaModularity (vcout c) (vcout d) (vtot u) (ctot c) (ctot d) M R
    if p.2 < e then (c, e) else p

/-- Embeds `louvainChooseCommunity`: starting from `(cmax, emax) = (0, 0)`,
fold `louvainChooseStep` over `vcs` with `d = vcom[u]`. -/
def louvainChooseCommunity (SELF : Bool) (x : Graph) (u : Nat)
    (vcom : Nat → Nat) (vtot ctot : Nat → ℚ) (vcs : List Nat)
    (vcout : Nat → ℚ) (M R : ℚ) : Nat × ℚ :=
  vcs.foldl (louvainChooseStep SELF u (vcom u) vtot ctot vcout M R) (0, 0)

/-- Embeds `louvainChangeCommunity`: with `d = vcom[u]`, subtract
`vtot[u]` from `ctot[d]`, add it to `ctot[c]`, set `vcom[u] = c`. -/
def louvainChangeCommunity (vcom : Nat → Nat) (ctot : Nat → ℚ) (x : Graph)
    (u c : Nat) (vtot : Nat → ℚ) : (Nat → Nat) × (Nat → ℚ) :=
  let d := vcom u
  let ctot1 := Function.update ctot d (ctot d - vtot u)
  let ctot2 := Function.update ctot1 c (ctot1 c + vtot u)
  (Function.update vcom u c, ctot2)

/-- The mutable state of `louvainMove`: the community map, the community
weights and the two scratch buffers. -/
structure MoveState where
  vcom : Nat → Nat
  ctot : Nat → ℚ
  vcs : List Nat
  vcout : Nat → ℚ

/-- The body of `louvainMove`'s per-vertex visit: clear the scan buffers,
scan `u`'s communities, choose the best community, and when the chosen id
`c` is nonzero (the C++ `if (c)`) apply `louvainChangeCommunity`. Returns
the new state and the chosen gain `e` (always added to `el`). -/
def louvainMoveVisit (x : Graph) (vtot : Nat → ℚ) (M R : ℚ)
    (s : MoveState) (u : Nat) : MoveState × ℚ :=
  let p0 := louvainClearScan s.vcs s.vcout
  let p1 := louvainScanCommunities false p0.1 p0.2 x u s.vcom
  let ce := louvainChooseCommunity false x u s.vcom vtot s.ctot p1.1 p1.2 M R
  if ce.1 ≠ 0 then
    let vc := louvainChangeCommunity s.vcom s.ctot x u ce.1 vtot
    (⟨vc.1, vc.2, p1.1, p1.2⟩, ce.2)
  else (⟨s.vcom, s.ctot, p1.1, p1.2⟩, ce.2)

/-- One full sweep of `louvainMove` over the live vertices, accumulating
each vertex's chosen gain into `el`. -/
def louvainMoveSweep (x : Graph) (vtot : Nat → ℚ) (M R : ℚ)
    (s : MoveState) : MoveState × ℚ :=
  x.verts.foldl
    (fun p u =>
      let se := louvainMoveVisit x vtot M R p.1 u
      (se.1, p.2 + se.2))
    (s, 0)

/-- The iteration loop of `louvainMove` with fuel `L` (`for (; l<L;)`):
run a sweep, count it, stop when its `el ≤ E`, and return the final state
with the number of completed sweeps. -/
def louvainMoveLoop (x : Graph) (vtot : Nat → ℚ) (M R E : ℚ) :
    MoveState → Nat → MoveState × Nat
  | s, 0 => (s, 0)
  | s, L + 1 =>
    let se := louvainMoveSweep x vtot M R s
    if se.2 ≤ E then (se.1, 1)
    else
      let r := louvainMoveLoop x vtot M R E se.1 L
      (r.1, r.2 + 1)

/-- Embeds `louvainMove`: run the sweep loop from the given initial state
for at most `L` iterations. -/
def louvainMove (vcom : Nat → Nat) (ctot : Nat → ℚ) (vcs : List Nat)
    (vcout : Nat → ℚ) (x : Graph) (vtot : Nat → ℚ) (M R E : ℚ) (L : Nat) :
    MoveState × Nat :=
  louvainMoveLoop x vtot M R E ⟨vcom, ctot, vcs, vcout⟩ L

/-- Embeds `louvainCommunityVertices`: the inverted community→members
index, built by pushing each live `u` onto entry `vcom[u]`. -/
def louvainCommunityVertices (x : Graph) (vcom : Nat → Nat) :
    Nat → List Nat :=
  x.verts.foldl
    (fun a u => Function.update a (vcom u) (a (vcom u) ++ [u]))
    (fun _ => [])

/-- Embeds `G::addVertex`: record the key as live (idempotent) and grow
the span to cover it. -/
def Graph.addVertex (g : Graph) (u : Nat) : Graph :=
  ⟨max g.span (u + 1), if u ∈ g.verts then g.verts else g.verts ++ [u], g.adj⟩

/-- Embeds `G::addEdge` as the aggregation uses it: append `(v, w)` to
the adjacency of `u` (each `(c, d)` pair is added at most once there). -/
def Graph.addEdge (g : Graph) (u v : Nat) (w : ℚ) : Graph :=
  ⟨g.span, g.verts, Function.update g.adj u (g.adj u ++ [(v, w)])⟩

/-- One community iteration of `louvainAggregate`: clear the scan
buffers, scan every member of community `c` with self-loops enabled, add
vertex `c` to the output, then add an edge `(c, d, vcout[d])` for each
`d` in `vcs`. -/
def louvainAggregateStep (x : Graph) (vcom : Nat → Nat)
    (comv : Nat → List Nat) (st : Graph × List Nat × (Nat → ℚ)) (c : Nat) :
    Graph × List Nat × (Nat → ℚ) :=
  let p0 := louvainClearScan st.2.1 st.2.2
  let p1 := (comv c).foldl
    (fun p u => louvainScanCommunities true p.1 p.2 x u vcom) p0
  let a1 := (st.1.addVertex c)
  let a2 := p1.1.foldl (fun (a : Graph) d => a.addEdge c d (p1.2 d)) a1
  (a2, p1.1, p1.2)

/-- Embeds `louvainAggregate`: loop `c` over `[0, span)` with fresh
scratch buffers, starting from an empty output graph. -/
def louvainAggregate (x : Graph) (vcom : Nat → Nat) : Graph :=
  let comv := louvainCommunityVertices x vcom
  ((List.range x.span).foldl (louvainAggregateStep x vcom comv)
    (⟨0, [], fun _ => []⟩, [], fun _ => 0)).1

/-- Total weight of the edges from `u` to `v` in `g` (the sum of the
adjacency entries of `u` whose target is `v`). -/
def edgeWeight (g : Graph) (u v : Nat) : ℚ :=
  (((g.adj u).filter (fun p => p.1 = v)).map Prod.snd).sum

/-- Embeds `louvainLookupCommunities`: replace every entry `v` of `a` by
`vcom[v]` (an in-place map in the C++). -/
def louvainLookupCommunities (a : List Nat) (vcom : List Nat) : List Nat :=
  a.map (fun v => vcom.getD v 0)

/-- Composition of `louvainLookupCommunities` over a stack of per-level
community vectors, leaves first. -/
def louvainLookupStack (a : List Nat) (levels : List (List Nat)) : List Nat :=
  levels.foldl louvainLookupCommunities a

/-- Embeds `louvainAffectedVertices`: deletions mark the source, its
neighborhood flag and the target's community; insertions clear the scan
buffers, call `louvainChooseCommunity` (on the just-cleared, never
re-scanned buffers, exactly as the C++ does) and mark the source, its
neighborhood flag and the chosen community; finally every vertex with a
flagged neighborhood marks its neighbors and every vertex in a flagged
community marks itself. -/
def louvainAffectedVertices (x : Graph)
    (deletions insertions : List (Nat × Nat)) (vcom : Nat → Nat)
    (vtot ctot : Nat → ℚ) (M R : ℚ) : Nat → Bool :=
  let st0 : (Nat → Bool) × (Nat → Bool) × (Nat → Bool) :=
    (fun _ => false, fun _ => false, fun _ => false)
  let st1 := deletions.foldl
    (fun st uv =>
      (Function.update st.1 uv.1 true,
       Function.update st.2.1 uv.1 true,
       Function.update st.2.2 (vcom uv.2) true)) st0
  let st2 := insertions.foldl
    (fun (st : ((Nat → Bool) × (Nat → Bool) × (Nat → Bool)) ×
        List Nat × (Nat → ℚ)) uv =>
      let p0 := louvainClearScan st.2.1 st.2.2
      let ce := louvainChooseCommunity false x uv.1 vcom vtot ctot p0.1 p0.2 M R
      ((Function.update st.1.1 uv.1 true,
        Function.update st.1.2.1 uv.1 true,
        Function.update st.1.2.2 ce.1 true), p0.1, p0.2))
    (st1, [], fun _ => 0)
  let vertices := st2.1.1
  let neighbors := st2.1.2.1
  let communities := st2.1.2.2
  x.verts.foldl
    (fun vert u =>
      let vert1 := if neighbors u then
        (x.adj u).foldl (fun ve p => Function.update ve p.1 true) vert
      else vert
      if communities (vcom u) then Function.update vert1 u true else vert1)
    vertices

/-- The best community for `u` under a full neighbor scan followed by
delta-modularity maximization: `louvainScanCommunities` on cleared
buffers, then `louvainChooseCommunity`. -/
def bestCommunityFullScan (x : Graph) (u : Nat) (vcom : Nat → Nat)
    (vtot ctot : Nat → ℚ) (M R : ℚ) : Nat × ℚ :=
  let p1 := louvainScanCommunities false [] (fun _ => 0) x u vcom
  louvainChooseCommunity false x u vcom vtot ctot p1.1 p1.2 M R

/-- The state reached after `k` full sweeps from `s`. -/
def sweepState (x : Graph) (vtot : Nat → ℚ) (M R : ℚ) (s : MoveState) :
    Nat → MoveState
  | 0 => s
  | k + 1 => (louvainMoveSweep x vtot M R (sweepState x vtot M R s k)).1

/-- The `el` value produced by sweep number `k` (0-indexed) from `s`. -/
def sweepEl (x : Graph) (vtot : Nat → ℚ) (M R : ℚ) (s : MoveState)
    (k : Nat) : ℚ :=
  (louvainMoveSweep x vtot M R (sweepState x vtot M R s k)).2

/-- The delta-modularity gain `louvainChooseCommunity` computes for a
candidate community `c` (the argument tuple of its `deltaModularity`
call). -/
def chooseGain (u d : Nat) (vtot ctot vcout : Nat → ℚ) (M R : ℚ)
    (c : Nat) : ℚ :=
  deltaModularity (vcout c) (vcout d) (vtot u) (ctot c) (ctot d) M R

/-- The bare best-so-far fold at the heart of `louvainChooseCommunity`,
abstracted over the gain function. -/
def chooseFold (f : Nat → ℚ) (l : List Nat) (p : Nat × ℚ) : Nat × ℚ :=
  l.foldl (fun p c => if p.2 < f c then (c, f c) else p) p

lemma chooseFold_nil (f : Nat → ℚ) (p : Nat × ℚ) : chooseFold f [] p = p :=
  rfl

lemma chooseFold_cons (f : Nat → ℚ) (c : Nat) (l : List Nat) (p : Nat × ℚ) :
    chooseFold f (c :: l) p
      = chooseFold f l (if p.2 < f c then (c, f c) else p) :=
  rfl

lemma chooseFold_start_le (f : Nat → ℚ) (l : List Nat) (p : Nat × ℚ) :
    p.2 ≤ (chooseFold f l p).2 := by
  induction l generalizing p with
  | nil => simp [chooseFold_nil]
  | cons c l ih =>
    rw [chooseFold_cons]
    refine le_trans ?_ (ih _)
    split
    · exact le_of_lt (by assumption)
    · exact le_rfl

lemma chooseFold_mem_le (f : Nat → ℚ) (l : List Nat) (p : Nat × ℚ) :
    ∀ c ∈ l, f c ≤ (chooseFold f l p).2 := by
  induction l generalizing p with
  | nil => intro c hc; simp at hc
  | cons a l ih =>
    intro c hc
    rw [chooseFold_cons]
    rcases List.mem_cons.1 hc with h | h
    · subst h
      refine le_trans ?_ (chooseFold_start_le f l _)
      split
      · simp
      · exact le_of_not_lt (by assumption)
    · exact ih _ c h

lemma chooseFold_cases (f : Nat → ℚ) (l : List Nat) (p : Nat × ℚ) :
    chooseFold f l p = p ∨
      ∃ l1 l2, l = l1 ++ (chooseFold f l p).1 :: l2 ∧
        f (chooseFold f l p).1 = (chooseFold f l p).2 ∧
        p.2 < (chooseFold f l p).2 ∧
        ∀ c ∈ l1, f c < (chooseFold f l p).2 := by
  induction l generalizing p with
  | nil => left; rfl
  | cons a l ih =>
    rw [chooseFold_cons]
    by_cases h : p.2 < f a
    · rw [if_pos h]
      rcases ih (a, f a) with heq | ⟨l1, l2, hdec, hga, hlt, hall⟩
      · right
        refine ⟨[], l, ?_, ?_, ?_, ?_⟩
        · simp [heq]
        · simp [heq]
        · rw [heq]; simpa using h
        · intro c hc; simp at hc
      · have hlt' : f a < (chooseFold f l (a, f a)).2 := by simpa using hlt
        right
        refine ⟨a :: l1, l2, ?_, hga, lt_trans h hlt', ?_⟩
        · rw [List.cons_append]
          exact congrArg (List.cons a) hdec
        · intro c hc
          rcases List.mem_cons.1 hc with hc | hc
          · subst hc; exact hlt'
          · exact hall c hc
    · rw [if_neg h]
      rcases ih p with heq | ⟨l1, l2, hdec, hga, hlt, hall⟩
      · left; exact heq
      · right
        refine ⟨a :: l1, l2, ?_, hga, hlt, ?_⟩
        · rw [List.cons_append]
          exact congrArg (List.cons a) hdec
        · intro c hc
          rcases List.mem_cons.1 hc with hc | hc
          · subst hc; exact lt_of_le_of_lt (le_of_not_lt h) hlt
          · exact hall c hc

lemma louvainChooseStep_true (u d : Nat) (vtot ctot vcout : Nat → ℚ)
    (M R : ℚ) (p : Nat × ℚ) (c : Nat) :
    louvainChooseStep true u d vtot ctot vcout M R p c
      = if p.2 < chooseGain u d vtot ctot vcout M R c
          then (c, chooseGain u d vtot ctot vcout M R c) else p := by
  simp [louvainChooseStep, chooseGain]

lemma foldl_chooseStep_false (u d : Nat) (vtot ctot vcout : Nat → ℚ)
    (M R : ℚ) (vcs : List Nat) (p : Nat × ℚ) :
    vcs.foldl (louvainChooseStep false u d vtot ctot vcout M R) p
      = chooseFold (chooseGain u d vtot ctot vcout M R)
          (vcs.filter (fun c => decide (c ≠ d))) p := by
  induction vcs generalizing p with
  | nil => rfl
  | cons c l ih =>
    by_cases h : c = d
    · subst h
      rw [List.foldl_cons, List.filter_cons_of_neg (by simp)]
      have hstep : louvainChooseStep false u c vtot ctot vcout M R p c = p := by
        simp [louvainChooseStep]
      rw [hstep, ih]
    · rw [List.foldl_cons, List.filter_cons_of_pos (by simp [h]),
        chooseFold_cons]
      have hstep : louvainChooseStep false u d vtot ctot vcout M R p c
          = if p.2 < chooseGain u d vtot ctot vcout M R c
              then (c, chooseGain u d vtot ctot vcout M R c) else p := by
        simp [louvainChooseStep, chooseGain, h]
      rw [hstep, ih]

lemma louvainChooseCommunity_false_eq (x : Graph) (u : Nat)
    (vcom : Nat → Nat) (vtot ctot : Nat → ℚ) (vcs : List Nat)
    (vcout : Nat → ℚ) (M R : ℚ) :
    louvainChooseCommunity false x u vcom vtot ctot vcs vcout M R
      = chooseFold (chooseGain u (vcom u) vtot ctot vcout M R)
          (vcs.filter (fun c => decide (c ≠ vcom u))) (0, 0) :=
  foldl_chooseStep_false u (vcom u) vtot ctot vcout M R vcs (0, 0)

/-- When the chosen community id is nonzero, the fold actually selected a
candidate: the gain is strictly positive and the candidate differs from
the current community and belongs to `vcs`. -/
lemma chooseCommunity_ne_zero (x : Graph) (u : Nat) (vcom : Nat → Nat)
    (vtot ctot : Nat → ℚ) (vcs : List Nat) (vcout : Nat → ℚ) (M R : ℚ)
    (h : (louvainChooseCommunity false x u vcom vtot ctot vcs vcout M R).1 ≠ 0) :
    0 < (louvainChooseCommunity false x u vcom vtot ctot vcs vcout M R).2 ∧
      (louvainChooseCommunity false x u vcom vtot ctot vcs vcout M R).1 ≠ vcom u ∧
      (louvainChooseCommunity false x u vcom vtot ctot vcs vcout M R).1 ∈ vcs := by
  rw [louvainChooseCommunity_false_eq] at h ⊢
  rcases chooseFold_cases (chooseGain u (vcom u) vtot ctot vcout M R)
      (vcs.filter (fun c => decide (c ≠ vcom u))) (0, 0) with heq | ⟨l1, l2, hdec, _, hlt, _⟩
  · exact absurd (congrArg Prod.fst heq) h
  · have hmem : (chooseFold (chooseGain u (vcom u) vtot ctot vcout M R)
        (vcs.filter (fun c => decide (c ≠ vcom u))) (0, 0)).1
        ∈ vcs.filter (fun c => decide (c ≠ vcom u)) := by
      have := List.mem_append_right l1 (List.mem_cons_self
        (chooseFold (chooseGain u (vcom u) vtot ctot vcout M R)
          (vcs.filter (fun c => decide (c ≠ vcom u))) (0, 0)).1 l2)
      rw [← hdec] at this
      exact this
    have hfil := List.of_mem_filter hmem
    have hvcs := List.mem_of_mem_filter hmem
    exact ⟨hlt, by simpa using hfil, hvcs⟩

/-- C9: with `SELF = false`, `louvainChooseCommunity` always returns a
nonnegative gain; a nonzero chosen community id forces a strictly
positive gain and an id different from `vcom[u]`; and on an empty `vcs`
the result is `(0, 0)`. -/
theorem chooseCommunity_result_props (x : Graph) (u : Nat)
    (vcom : Nat → Nat) (vtot ctot : Nat → ℚ) (vcs : List Nat)
    (vcout : Nat → ℚ) (M R : ℚ) :
    0 ≤ (louvainChooseCommunity false x u vcom vtot ctot vcs vcout M R).2
    ∧ ((louvainChooseCommunity false x u vcom vtot ctot vcs vcout M R).1 ≠ 0 →
        0 < (louvainChooseCommunity false x u vcom vtot ctot vcs vcout M R).2
        ∧ (louvainChooseCommunity false x u vcom vtot ctot vcs vcout M R).1 ≠ vcom u)
    ∧ louvainChooseCommunity false x u vcom vtot ctot [] vcout M R = (0, 0) := by
  refine ⟨?_, ?_, rfl⟩
  · rw [louvainChooseCommunity_false_eq]
    exact chooseFold_start_le _ _ (0, 0)
  · intro h
    exact ⟨(chooseCommunity_ne_zero x u vcom vtot ctot vcs vcout M R h).1,
      (chooseCommunity_ne_zero x u vcom vtot ctot vcs vcout M R h).2.1⟩

/-- C5: with `SELF = false`, `louvainChooseCommunity` folds exactly over
the candidates of `vcs` different from `vcom[u]`; every such candidate's
gain is bounded by the returned gain; and unless the result is the
initial `(0, 0)`, the returned community is the first-encountered
candidate realizing the returned gain (all candidates strictly before it
have strictly smaller gain, so a later equal gain never preempts it). -/
theorem chooseCommunity_max_first_tiebreak (x : Graph) (u : Nat)
    (vcom : Nat → Nat) (vtot ctot : Nat → ℚ) (vcs : List Nat)
    (vcout : Nat → ℚ) (M R : ℚ) :
    louvainChooseCommunity false x u vcom vtot ctot vcs vcout M R
      = chooseFold (chooseGain u (vcom u) vtot ctot vcout M R)
          (vcs.filter (fun c => decide (c ≠ vcom u))) (0, 0)
    ∧ (∀ c ∈ vcs, c ≠ vcom u →
        chooseGain u (vcom u) vtot ctot vcout M R c
          ≤ (louvainChooseCommunity false x u vcom vtot ctot vcs vcout M R).2)
    ∧ (louvainChooseCommunity false x u vcom vtot ctot vcs vcout M R = (0, 0)
       ∨ ∃ l1 l2,
          vcs.filter (fun c => decide (c ≠ vcom u))
            = l1 ++ (louvainChooseCommunity false x u vcom vtot ctot vcs vcout M R).1 :: l2
          ∧ chooseGain u (vcom u) vtot ctot vcout M R
              (louvainChooseCommunity false x u vcom vtot ctot vcs vcout M R).1
            = (louvainChooseCommunity false x u vcom vtot ctot vcs vcout M R).2
          ∧ ∀ c ∈ l1, chooseGain u (vcom u) vtot ctot vcout M R c
              < (louvainChooseCommunity false x u vcom vtot ctot vcs vcout M R).2) := by
  refine ⟨louvainChooseCommunity_false_eq x u vcom vtot ctot vcs vcout M R, ?_, ?_⟩
  · intro c hc hne
    rw [louvainChooseCommunity_false_eq]
    exact chooseFold_mem_le _ _ (0, 0) c
      (List.mem_filter.2 ⟨hc, by simpa using hne⟩)
  · rw [louvainChooseCommunity_false_eq]
    rcases chooseFold_cases (chooseGain u (vcom u) vtot ctot vcout M R)
        (vcs.filter (fun c => decide (c ≠ vcom u))) (0, 0) with heq | ⟨l1, l2, hdec, hga, _, hall⟩
    · left; exact heq
    · right; exact ⟨l1, l2, hdec, hga, hall⟩

lemma louvainChangeCommunity_ctot_apply (vcom : Nat → Nat) (ctot : Nat → ℚ)
    (x : Graph) (u c : Nat) (vtot : Nat → ℚ) (e : Nat) :
    (louvainChangeCommunity vcom ctot x u c vtot).2 e
      = ctot e - (if e = vcom u then vtot u else 0)
          + (if e = c then vtot u else 0) := by
  have h2 : (louvainChangeCommunity vcom ctot x u c vtot).2
      = Function.update
          (Function.update ctot (vcom u) (ctot (vcom u) - vtot u)) c
          ((Function.update ctot (vcom u) (ctot (vcom u) - vtot u)) c
            + vtot u) := rfl
  rw [h2]
  rcases eq_or_ne e c with hc | hc <;> rcases eq_or_ne e (vcom u) with hd | hd
  · have hcd : c = vcom u := hc.symm.trans hd
    simp [hc, hcd, Function.update_apply]
  · have hcd : c ≠ vcom u := fun h => hd (hc.trans h)
    simp [hc, hcd, Function.update_apply]
  · have hcd : vcom u ≠ c := fun h => hc (hd.trans h)
    simp [hd, hcd, Function.update_apply]
  · simp [hc, hd, Function.update_apply]

lemma louvainChangeCommunity_vcom_apply (vcom : Nat → Nat) (ctot : Nat → ℚ)
    (x : Graph) (u c : Nat) (vtot : Nat → ℚ) (w : Nat) :
    (louvainChangeCommunity vcom ctot x u c vtot).1 w
      = if w = u then c else vcom w := by
  have h1 : (louvainChangeCommunity vcom ctot x u c vtot).1
      = Function.update vcom u c := rfl
  rw [h1, Function.update_apply]

/-- C10: `louvainChangeCommunity` preserves the total of `ctot` over the
key space and touches nothing besides `ctot` at the old community and at
`c`, and `vcom` at `u`. -/
theorem changeCommunity_frame (vcom : Nat → Nat) (ctot : Nat → ℚ)
    (x : Graph) (u c : Nat) (vtot : Nat → ℚ) (S : Nat)
    (hd : vcom u < S) (hc : c < S) :
    (∑ e ∈ Finset.range S, (louvainChangeCommunity vcom ctot x u c vtot).2 e)
      = ∑ e ∈ Finset.range S, ctot e
    ∧ (∀ e, e ≠ vcom u → e ≠ c →
        (louvainChangeCommunity vcom ctot x u c vtot).2 e = ctot e)
    ∧ (∀ w, w ≠ u →
        (louvainChangeCommunity vcom ctot x u c vtot).1 w = vcom w) := by
  refine ⟨?_, ?_, ?_⟩
  · simp only [louvainChangeCommunity_ctot_apply]
    rw [Finset.sum_add_distrib, Finset.sum_sub_distrib,
      Finset.sum_ite_eq' (Finset.range S) (vcom u) (fun _ => vtot u),
      Finset.sum_ite_eq' (Finset.range S) c (fun _ => vtot u),
      if_pos (Finset.mem_range.2 hd), if_pos (Finset.mem_range.2 hc)]
    ring
  · intro e he1 he2
    rw [louvainChangeCommunity_ctot_apply, if_neg he1, if_neg he2]
    ring
  · intro w hw
    rw [louvainChangeCommunity_vcom_apply, if_neg hw]

/-- Witness for C10 at a concrete input: span 3, identity communities,
unit weights, moving vertex 0 to community 1. -/
theorem changeCommunity_frame_witness :
    (∑ e ∈ Finset.range 3,
        (louvainChangeCommunity (fun w => w) (fun _ => 1)
          ⟨0, [], fun _ => []⟩ 0 1 (fun _ => 1)).2 e)
      = ∑ e ∈ Finset.range 3, (1 : ℚ)
    ∧ (∀ e, e ≠ (fun w => w) 0 → e ≠ 1 →
        (louvainChangeCommunity (fun w => w) (fun _ => 1)
          ⟨0, [], fun _ => []⟩ 0 1 (fun _ => 1)).2 e = 1)
    ∧ (∀ w, w ≠ 0 →
        (louvainChangeCommunity (fun w => w) (fun _ => 1)
          ⟨0, [], fun _ => []⟩ 0 1 (fun _ => 1)).1 w = w) :=
  changeCommunity_frame (fun w => w) (fun _ => 1) ⟨0, [], fun _ => []⟩ 0 1
    (fun _ => 1) 3 (by decide) (by decide)

/-- C2: in a vertex visit of `louvainMove`, the chosen move is applied
(`ctot` at the old community drops by `vtot[u]`, `ctot` at the chosen
community `c*` grows by `vtot[u]`, `vcom[u]` becomes `c*`) exactly when
the chosen id is nonzero, and — since a nonzero chosen id forces a
strictly positive gain — exactly when the id is nonzero and the gain is
strictly positive; a best target of community id `0` is suppressed and
leaves `vcom` and `ctot` untouched. -/
theorem moveVisit_applies_iff (x : Graph) (vtot : Nat → ℚ) (M R : ℚ)
    (s : MoveState) (u : Nat) (p1 : List Nat × (Nat → ℚ)) (ce : Nat × ℚ)
    (hp1 : louvainScanCommunities false (louvainClearScan s.vcs s.vcout).1
        (louvainClearScan s.vcs s.vcout).2 x u s.vcom = p1)
    (hce : louvainChooseCommunity false x u s.vcom vtot s.ctot
        p1.1 p1.2 M R = ce) :
    (ce.1 ≠ 0 ↔ ce.1 ≠ 0 ∧ 0 < ce.2)
    ∧ (ce.1 ≠ 0 →
        (louvainMoveVisit x vtot M R s u).1.vcom u = ce.1
        ∧ (louvainMoveVisit x vtot M R s u).1.ctot (s.vcom u)
            = s.ctot (s.vcom u) - vtot u
        ∧ (louvainMoveVisit x vtot M R s u).1.ctot ce.1
            = s.ctot ce.1 + vtot u)
    ∧ (ce.1 = 0 →
        (louvainMoveVisit x vtot M R s u).1.vcom = s.vcom
        ∧ (louvainMoveVisit x vtot M R s u).1.ctot = s.ctot)
    ∧ (louvainMoveVisit x vtot M R s u).2 = ce.2 := by
  subst hp1
  subst hce
  have hvisit : louvainMoveVisit x vtot M R s u
      = (if (louvainChooseCommunity false x u s.vcom vtot s.ctot
            (louvainScanCommunities false (louvainClearScan s.vcs s.vcout).1
              (louvainClearScan s.vcs s.vcout).2 x u s.vcom).1
            (louvainScanCommunities false (louvainClearScan s.vcs s.vcout).1
              (louvainClearScan s.vcs s.vcout).2 x u s.vcom).2 M R).1 ≠ 0 then
          (⟨(louvainChangeCommunity s.vcom s.ctot x u
              (louvainChooseCommunity false x u s.vcom vtot s.ctot
                (louvainScanCommunities false (louvainClearScan s.vcs s.vcout).1
                  (louvainClearScan s.vcs s.vcout).2 x u s.vcom).1
                (louvainScanCommunities false (louvainClearScan s.vcs s.vcout).1
                  (louvainClearScan s.vcs s.vcout).2 x u s.vcom).2 M R).1 vtot).1,
            (louvainChangeCommunity s.vcom s.ctot x u
              (louvainChooseCommunity false x u s.vcom vtot s.ctot
                (louvainScanCommunities false (louvainClearScan s.vcs s.vcout).1
                  (louvainClearScan s.vcs s.vcout).2 x u s.vcom).1
                (louvainScanCommunities false (louvainClearScan s.vcs s.vcout).1
                  (louvainClearScan s.vcs s.vcout).2 x u s.vcom).2 M R).1 vtot).2,
            (louvainScanCommunities false (louvainClearScan s.vcs s.vcout).1
              (louvainClearScan s.vcs s.vcout).2 x u s.vcom).1,
            (louvainScanCommunities false (louvainClearScan s.vcs s.vcout).1
              (louvainClearScan s.vcs s.vcout).2 x u s.vcom).2⟩,
           (louvainChooseCommunity false x u s.vcom vtot s.ctot
            (louvainScanCommunities false (louvainClearScan s.vcs s.vcout).1
              (louvainClearScan s.vcs s.vcout).2 x u s.vcom).1
            (louvainScanCommunities false (louvainClearScan s.vcs s.vcout).1
              (louvainClearScan s.vcs s.vcout).2 x u s.vcom).2 M R).2)
        else
          (⟨s.vcom, s.ctot,
            (louvainScanCommunities false (louvainClearScan s.vcs s.vcout).1
              (louvainClearScan s.vcs s.vcout).2 x u s.vcom).1,
            (louvainScanCommunities false (louvainClearScan s.vcs s.vcout).1
              (louvainClearScan s.vcs s.vcout).2 x u s.vcom).2⟩,
           (louvainChooseCommunity false x u s.vcom vtot s.ctot
            (louvainScanCommunities false (louvainClearScan s.vcs s.vcout).1
              (louvainClearScan s.vcs s.vcout).2 x u s.vcom).1
            (louvainScanCommunities false (louvainClearScan s.vcs s.vcout).1
              (louvainClearScan s.vcs s.vcout).2 x u s.vcom).2 M R).2)) := rfl
  by_cases h : (louvainChooseCommunity false x u s.vcom vtot s.ctot
      (louvainScanCommunities false (louvainClearScan s.vcs s.vcout).1
        (louvainClearScan s.vcs s.vcout).2 x u s.vcom).1
      (louvainScanCommunities false (louvainClearScan s.vcs s.vcout).1
        (louvainClearScan s.vcs s.vcout).2 x u s.vcom).2 M R).1 = 0
  · rw [hvisit, if_neg (by simpa using h)]
    refine ⟨⟨fun hne => absurd h hne, fun hp => hp.1⟩, ?_, fun _ => ⟨rfl, rfl⟩, rfl⟩
    intro hne
    exact absurd h hne
  · have hpos := chooseCommunity_ne_zero x u s.vcom vtot s.ctot
      (louvainScanCommunities false (louvainClearScan s.vcs s.vcout).1
        (louvainClearScan s.vcs s.vcout).2 x u s.vcom).1
      (louvainScanCommunities false (louvainClearScan s.vcs s.vcout).1
        (louvainClearScan s.vcs s.vcout).2 x u s.vcom).2 M R h
    rw [hvisit, if_pos h]
    refine ⟨⟨fun hne => ⟨hne, hpos.1⟩, fun hp => hp.1⟩, ?_, fun h0 => absurd h0 h, rfl⟩
    intro _
    have hcd := hpos.2.1
    refine ⟨?_, ?_, ?_⟩
    · dsimp only
      rw [louvainChangeCommunity_vcom_apply, if_pos rfl]
    · dsimp only
      rw [louvainChangeCommunity_ctot_apply, if_pos rfl,
        if_neg (fun hh => hcd hh.symm)]
      ring
    · dsimp only
      rw [louvainChangeCommunity_ctot_apply, if_neg hcd, if_pos rfl]
      ring

/-- Witness for C2 at a concrete input: the empty graph and the all-zero
state, where the chosen community is `(0, 0)` and nothing moves. -/
theorem moveVisit_applies_iff_witness :
    (((0 : Nat), (0 : ℚ)).1 ≠ 0 ↔ ((0 : Nat), (0 : ℚ)).1 ≠ 0
        ∧ 0 < ((0 : Nat), (0 : ℚ)).2)
    ∧ (((0 : Nat), (0 : ℚ)).1 ≠ 0 →
        (louvainMoveVisit ⟨0, [], fun _ => []⟩ (fun _ => 0) 1 1
            ⟨fun _ => 0, fun _ => 0, [], fun _ => 0⟩ 0).1.vcom 0
          = ((0 : Nat), (0 : ℚ)).1
        ∧ (louvainMoveVisit ⟨0, [], fun _ => []⟩ (fun _ => 0) 1 1
            ⟨fun _ => 0, fun _ => 0, [], fun _ => 0⟩ 0).1.ctot
            ((fun _ => (0 : Nat)) 0)
          = (fun _ => (0 : ℚ)) ((fun _ => (0 : Nat)) 0) - (fun _ => (0 : ℚ)) 0
        ∧ (louvainMoveVisit ⟨0, [], fun _ => []⟩ (fun _ => 0) 1 1
            ⟨fun _ => 0, fun _ => 0, [], fun _ => 0⟩ 0).1.ctot
            ((0 : Nat), (0 : ℚ)).1
          = (fun _ => (0 : ℚ)) ((0 : Nat), (0 : ℚ)).1 + (fun _ => (0 : ℚ)) 0)
    ∧ (((0 : Nat), (0 : ℚ)).1 = 0 →
        (louvainMoveVisit ⟨0, [], fun _ => []⟩ (fun _ => 0) 1 1
            ⟨fun _ => 0, fun _ => 0, [], fun _ => 0⟩ 0).1.vcom
          = (fun _ => 0)
        ∧ (louvainMoveVisit ⟨0, [], fun _ => []⟩ (fun _ => 0) 1 1
            ⟨fun _ => 0, fun _ => 0, [], fun _ => 0⟩ 0).1.ctot
          = (fun _ => 0))
    ∧ (louvainMoveVisit ⟨0, [], fun _ => []⟩ (fun _ => 0) 1 1
        ⟨fun _ => 0, fun _ => 0, [], fun _ => 0⟩ 0).2
      = ((0 : Nat), (0 : ℚ)).2 :=
  moveVisit_applies_iff ⟨0, [], fun _ => []⟩ (fun _ => 0) 1 1
    ⟨fun _ => 0, fun _ => 0, [], fun _ => 0⟩ 0 ([], fun _ => 0)
    ((0 : Nat), (0 : ℚ)) rfl rfl

/-- A sequence of `louvainChangeCommunity` calls `(u, c)` applied to a
`(vcom, ctot)` pair. -/
def applyChanges (x : Graph) (vtot : Nat → ℚ)
    (p : (Nat → Nat) × (Nat → ℚ)) (ms : List (Nat × Nat)) :
    (Nat → Nat) × (Nat → ℚ) :=
  ms.foldl (fun p m => louvainChangeCommunity p.1 p.2 x m.1 m.2 vtot) p

/-- The total vertex weight of community `c`: the sum of `vtot[u]` over
the live vertices `u` with `vcom[u] = c`. -/
def communityWeight (x : Graph) (vtot : Nat → ℚ) (vcom : Nat → Nat)
    (c : Nat) : ℚ :=
  ((x.verts.filter (fun u => decide (vcom u = c))).map vtot).sum

lemma filter_map_sum_eq (l : List Nat) (P : Nat → Prop) [DecidablePred P]
    (f : Nat → ℚ) :
    ((l.filter (fun u => decide (P u))).map f).sum
      = (l.map (fun u => if P u then f u else 0)).sum := by
  induction l with
  | nil => rfl
  | cons a l ih =>
    by_cases h : P a
    · rw [List.filter_cons_of_pos (by simpa using h), List.map_cons,
        List.sum_cons, List.map_cons, List.sum_cons, if_pos h, ih]
    · rw [List.filter_cons_of_neg (by simpa using h), List.map_cons,
        List.sum_cons, if_neg h, ih, zero_add]

lemma sum_map_update_of_nodup (l : List Nat) (hl : l.Nodup) (u : Nat)
    (hu : u ∈ l) (g h : Nat → ℚ) (hgh : ∀ w, w ≠ u → g w = h w) :
    (l.map g).sum = (l.map h).sum - h u + g u := by
  induction l with
  | nil => cases hu
  | cons a l ih =>
    rw [List.map_cons, List.sum_cons, List.map_cons, List.sum_cons]
    rcases List.mem_cons.1 hu with hua | hul
    · subst hua
      have hnl : u ∉ l := (List.nodup_cons.1 hl).1
      have hml : l.map g = l.map h :=
        List.map_congr_left (fun w hw => hgh w (fun he => hnl (he ▸ hw)))
      rw [hml]; ring
    · have hau : a ≠ u := fun he => (List.nodup_cons.1 hl).1 (he ▸ hul)
      rw [hgh a hau, ih (List.nodup_cons.1 hl).2 hul]; ring

lemma sum_map_single_of_nodup (l : List Nat) (hl : l.Nodup) (c : Nat)
    (f : Nat → ℚ) :
    (l.map (fun u => if u = c then f u else 0)).sum
      = if c ∈ l then f c else 0 := by
  induction l with
  | nil => rfl
  | cons a l ih =>
    rw [List.map_cons, List.sum_cons, ih (List.nodup_cons.1 hl).2]
    by_cases hac : a = c
    · subst hac
      have hnl : a ∉ l := (List.nodup_cons.1 hl).1
      rw [if_pos rfl, if_neg hnl, if_pos (List.mem_cons_self a l)]
      ring
    · rw [if_neg hac]
      by_cases hcl : c ∈ l
      · rw [if_pos hcl, if_pos (List.mem_cons_of_mem a hcl), zero_add]
      · rw [if_neg hcl,
          if_neg (fun hm => (List.mem_cons.1 hm).elim (fun he => hac he.symm) hcl)]
        ring

lemma louvainInitialize_fst (x : Graph) (vtot : Nat → ℚ) (u : Nat) :
    (louvainInitialize x vtot).1 u = if u ∈ x.verts then u else 0 := by
  unfold louvainInitialize
  suffices h : ∀ (l : List Nat) (f0 : Nat → Nat) (g0 : Nat → ℚ),
      (l.foldl (fun p u =>
        (Function.update p.1 u u, Function.update p.2 u (vtot u))) (f0, g0)).1 u
      = if u ∈ l then u else f0 u by
    exact h x.verts (fun _ => 0) (fun _ => 0)
  intro l
  induction l with
  | nil => intro f0 g0; simp
  | cons a l ih =>
    intro f0 g0
    rw [List.foldl_cons]
    rw [ih (Function.update f0 a a) (Function.update g0 a (vtot a))]
    by_cases hul : u ∈ l
    · rw [if_pos hul, if_pos (List.mem_cons_of_mem a hul)]
    · rw [if_neg hul, Function.update_apply]
      by_cases hua : u = a
      · rw [if_pos hua, if_pos (List.mem_cons.2 (Or.inl hua)), hua]
      · rw [if_neg hua,
          if_neg (fun hm => (List.mem_cons.1 hm).elim hua hul)]

lemma louvainInitialize_snd (x : Graph) (vtot : Nat → ℚ) (c : Nat) :
    (louvainInitialize x vtot).2 c = if c ∈ x.verts then vtot c else 0 := by
  unfold louvainInitialize
  suffices h : ∀ (l : List Nat) (f0 : Nat → Nat) (g0 : Nat → ℚ),
      (l.foldl (fun p u =>
        (Function.update p.1 u u, Function.update p.2 u (vtot u))) (f0, g0)).2 c
      = if c ∈ l then vtot c else g0 c by
    exact h x.verts (fun _ => 0) (fun _ => 0)
  intro l
  induction l with
  | nil => intro f0 g0; simp
  | cons a l ih =>
    intro f0 g0
    rw [List.foldl_cons]
    rw [ih (Function.update f0 a a) (Function.update g0 a (vtot a))]
    by_cases hcl : c ∈ l
    · rw [if_pos hcl, if_pos (List.mem_cons_of_mem a hcl)]
    · rw [if_neg hcl, Function.update_apply]
      by_cases hca : c = a
      · rw [if_pos hca, if_pos (List.mem_cons.2 (Or.inl hca)), hca]
      · rw [if_neg hca,
          if_neg (fun hm => (List.mem_cons.1 hm).elim hca hcl)]

lemma communityWeight_init (x : Graph) (vtot : Nat → ℚ)
    (hn : x.verts.Nodup) (c : Nat) :
    communityWeight x vtot (louvainInitialize x vtot).1 c
      = (louvainInitialize x vtot).2 c := by
  rw [communityWeight, filter_map_sum_eq, louvainInitialize_snd]
  have hmap : x.verts.map
      (fun u => if (louvainInitialize x vtot).1 u = c then vtot u else 0)
      = x.verts.map (fun u => if u = c then vtot u else 0) := by
    refine List.map_congr_left (fun u hu => ?_)
    rw [louvainInitialize_fst, if_pos hu]
  rw [hmap, sum_map_single_of_nodup x.verts hn c vtot]

lemma communityWeight_change (x : Graph) (vtot : Nat → ℚ)
    (hn : x.verts.Nodup) (vcom : Nat → Nat) (ctot : Nat → ℚ)
    (u cc : Nat) (hu : u ∈ x.verts)
    (hp : ∀ c, ctot c = communityWeight x vtot vcom c) (c : Nat) :
    (louvainChangeCommunity vcom ctot x u cc vtot).2 c
      = communityWeight x vtot
          (louvainChangeCommunity vcom ctot x u cc vtot).1 c := by
  rw [communityWeight, filter_map_sum_eq, louvainChangeCommunity_ctot_apply]
  rw [sum_map_update_of_nodup x.verts hn u hu
    (fun w => if (louvainChangeCommunity vcom ctot x u cc vtot).1 w = c
      then vtot w else 0)
    (fun w => if vcom w = c then vtot w else 0)
    (fun w hw => by
      show (if (louvainChangeCommunity vcom ctot x u cc vtot).1 w = c
          then vtot w else 0)
        = (if vcom w = c then vtot w else 0)
      rw [louvainChangeCommunity_vcom_apply, if_neg hw])]
  rw [louvainChangeCommunity_vcom_apply, if_pos rfl]
  rw [← filter_map_sum_eq x.verts (fun w => vcom w = c) vtot, ← communityWeight,
    ← hp c]
  have h1 : (if c = vcom u then vtot u else 0)
      = (if vcom u = c then vtot u else 0) := by
    rcases eq_or_ne c (vcom u) with h | h
    · rw [if_pos h, if_pos h.symm]
    · rw [if_neg h, if_neg (fun hh => h hh.symm)]
  have h2 : (if c = cc then vtot u else 0)
      = (if cc = c then vtot u else 0) := by
    rcases eq_or_ne c cc with h | h
    · rw [if_pos h, if_pos h.symm]
    · rw [if_neg h, if_neg (fun hh => h hh.symm)]
  rw [h1, h2]

lemma applyChanges_invariant (x : Graph) (vtot : Nat → ℚ)
    (hn : x.verts.Nodup) (ms : List (Nat × Nat))
    (hm : ∀ m ∈ ms, m.1 ∈ x.verts) (p : (Nat → Nat) × (Nat → ℚ))
    (hp : ∀ c, p.2 c = communityWeight x vtot p.1 c) :
    ∀ c, (applyChanges x vtot p ms).2 c
      = communityWeight x vtot (applyChanges x vtot p ms).1 c := by
  induction ms generalizing p with
  | nil => exact hp
  | cons m ms ih =>
    have hstep : applyChanges x vtot p (m :: ms)
        = applyChanges x vtot
            (louvainChangeCommunity p.1 p.2 x m.1 m.2 vtot) ms := rfl
    rw [hstep]
    refine ih (fun m' hm' => hm m' (List.mem_cons_of_mem m hm')) _
      (fun c => ?_)
    exact communityWeight_change x vtot hn p.1 p.2 m.1 m.2
      (hm m (List.mem_cons_self m ms)) hp c

/-- C3: after `louvainInitialize` and any sequence of
`louvainChangeCommunity` calls whose moved vertices are live, every
community's `ctot` entry equals the sum of `vtot` over the live vertices
currently assigned to it. -/
theorem ctot_consistent_after_changes (x : Graph) (vtot : Nat → ℚ)
    (ms : List (Nat × Nat)) (hn : x.verts.Nodup)
    (hm : ∀ m ∈ ms, m.1 ∈ x.verts) :
    ∀ c, (applyChanges x vtot (louvainInitialize x vtot) ms).2 c
      = communityWeight x vtot
          (applyChanges x vtot (louvainInitialize x vtot) ms).1 c :=
  applyChanges_invariant x vtot hn ms hm (louvainInitialize x vtot)
    (fun c => (communityWeight_init x vtot hn c).symm)

/-- Witness for C3 at a concrete input: a two-vertex graph with unit
vertex weights and the single move of vertex 0 to community 1. -/
theorem ctot_consistent_after_changes_witness :
    (applyChanges ⟨2, [0, 1], fun _ => []⟩ (fun _ => 1)
        (louvainInitialize ⟨2, [0, 1], fun _ => []⟩ (fun _ => 1))
        [(0, 1)]).2 1
      = communityWeight ⟨2, [0, 1], fun _ => []⟩ (fun _ => 1)
          (applyChanges ⟨2, [0, 1], fun _ => []⟩ (fun _ => 1)
            (louvainInitialize ⟨2, [0, 1], fun _ => []⟩ (fun _ => 1))
            [(0, 1)]).1 1 :=
  ctot_consistent_after_changes ⟨2, [0, 1], fun _ => []⟩ (fun _ => 1)
    [(0, 1)] (by decide) (by decide) 1

lemma scan_fold_invariant (SELF : Bool) (u : Nat) (vcom : Nat → Nat)
    (es : List (Nat × ℚ)) (hw : ∀ p ∈ es, 0 < p.2) :
    ∀ acc : List Nat × (Nat → ℚ), acc.1.Nodup →
      (∀ c, c ∈ acc.1 ↔ acc.2 c ≠ 0) → (∀ c, 0 ≤ acc.2 c) →
      (es.foldl (louvainScanStep SELF u vcom) acc).1.Nodup
      ∧ (∀ c, c ∈ (es.foldl (louvainScanStep SELF u vcom) acc).1
          ↔ (es.foldl (louvainScanStep SELF u vcom) acc).2 c ≠ 0)
      ∧ (∀ c, 0 ≤ (es.foldl (louvainScanStep SELF u vcom) acc).2 c) := by
  induction es with
  | nil => intro acc h1 h2 h3; exact ⟨h1, h2, h3⟩
  | cons e es ih =>
    intro acc h1 h2 h3
    rw [List.foldl_cons]
    have hwe : 0 < e.2 := hw e (List.mem_cons_self e es)
    have hwes : ∀ p ∈ es, 0 < p.2 :=
      fun p hp => hw p (List.mem_cons_of_mem e hp)
    by_cases hskip : SELF = false ∧ u = e.1
    · have hstep : louvainScanStep SELF u vcom acc e = acc := by
        rw [louvainScanStep, if_pos hskip]
      rw [hstep]
      exact ih hwes acc h1 h2 h3
    · have hstep : louvainScanStep SELF u vcom acc e
          = (if acc.2 (vcom e.1) = 0 then acc.1 ++ [vcom e.1] else acc.1,
             Function.update acc.2 (vcom e.1) (acc.2 (vcom e.1) + e.2)) := by
        rw [louvainScanStep, if_neg hskip]
      rw [hstep]
      by_cases hz : acc.2 (vcom e.1) = 0
      · rw [if_pos hz]
        have hnotmem : vcom e.1 ∉ acc.1 := fun hm => (h2 _).1 hm hz
        refine ih hwes _ ?_ ?_ ?_
        · exact List.Nodup.append h1 (List.nodup_singleton _)
            (by simpa [List.disjoint_singleton] using hnotmem)
        · intro c
          show c ∈ acc.1 ++ [vcom e.1]
            ↔ Function.update acc.2 (vcom e.1) (acc.2 (vcom e.1) + e.2) c ≠ 0
          rw [List.mem_append, List.mem_singleton, Function.update_apply]
          by_cases hc : c = vcom e.1
          · subst hc
            simp [hz, ne_of_gt hwe]
          · simp [hc, h2 c]
        · intro c
          show 0 ≤ Function.update acc.2 (vcom e.1) (acc.2 (vcom e.1) + e.2) c
          rw [Function.update_apply]
          by_cases hc : c = vcom e.1
          · rw [if_pos hc, hz]
            exact le_of_lt (by simpa using hwe)
          · rw [if_neg hc]; exact h3 c
      · rw [if_neg hz]
        refine ih hwes _ h1 ?_ ?_
        · intro c
          show c ∈ acc.1
            ↔ Function.update acc.2 (vcom e.1) (acc.2 (vcom e.1) + e.2) c ≠ 0
          rw [Function.update_apply]
          by_cases hc : c = vcom e.1
          · subst hc
            have hpos : (0 : ℚ) < acc.2 (vcom e.1) + e.2 := by
              have := lt_of_le_of_ne (h3 (vcom e.1)) (Ne.symm hz)
              positivity
            simp [(h2 _).2 hz, ne_of_gt hpos]
          · simp [hc, h2 c]
        · intro c
          show 0 ≤ Function.update acc.2 (vcom e.1) (acc.2 (vcom e.1) + e.2) c
          rw [Function.update_apply]
          by_cases hc : c = vcom e.1
          · rw [if_pos hc]
            have := lt_of_le_of_ne (h3 (vcom e.1)) (Ne.symm hz)
            exact le_of_lt (by positivity)
          · rw [if_neg hc]; exact h3 c

/-- C7 (amended: weights strictly positive): after a scan of `u` on
cleared scratch buffers, `vcs` holds distinct community ids and is in
sync with `vcout`: an id is in `vcs` exactly when its `vcout` entry is
nonzero. -/
theorem scanCommunities_nodup_sync (SELF : Bool) (x : Graph) (u : Nat)
    (vcom : Nat → Nat) (hw : ∀ p ∈ x.adj u, 0 < p.2) :
    (louvainScanCommunities SELF [] (fun _ => 0) x u vcom).1.Nodup
    ∧ ∀ c, c ∈ (louvainScanCommunities SELF [] (fun _ => 0) x u vcom).1
        ↔ (louvainScanCommunities SELF [] (fun _ => 0) x u vcom).2 c ≠ 0 := by
  have h := scan_fold_invariant SELF u vcom (x.adj u) hw ([], fun _ => 0)
    (List.nodup_nil) (by simp) (by intro c; exact le_rfl)
  exact ⟨h.1, h.2.1⟩

/-- Witness for C7 at a concrete input: a two-edge star with unit
weights. -/
theorem scanCommunities_nodup_sync_witness :
    (louvainScanCommunities false [] (fun _ => 0)
        ⟨3, [0, 1, 2], fun u => if u = 0 then [(1, 1), (2, 1)] else []⟩ 0
        (fun w => w)).1.Nodup
    ∧ (1 ∈ (louvainScanCommunities false [] (fun _ => 0)
          ⟨3, [0, 1, 2], fun u => if u = 0 then [(1, 1), (2, 1)] else []⟩ 0
          (fun w => w)).1
        ↔ (louvainScanCommunities false [] (fun _ => 0)
          ⟨3, [0, 1, 2], fun u => if u = 0 then [(1, 1), (2, 1)] else []⟩ 0
          (fun w => w)).2 1 ≠ 0) :=
  ⟨(scanCommunities_nodup_sync false
      ⟨3, [0, 1, 2], fun u => if u = 0 then [(1, 1), (2, 1)] else []⟩ 0
      (fun w => w) (by decide)).1,
   (scanCommunities_nodup_sync false
      ⟨3, [0, 1, 2], fun u => if u = 0 then [(1, 1), (2, 1)] else []⟩ 0
      (fun w => w) (by decide)).2 1⟩

/-- Counterexample to C7 as stated: with merely nonnegative weights, two
zero-weight edges into community 5 push the id twice (`vcout[5]` stays
zero), so `vcs = [5, 5]` is not distinct and is out of sync with
`vcout`. -/
theorem scanCommunities_nonneg_counterexample :
    (∀ p ∈ (⟨6, [0], fun u => if u = 0 then [(1, 0), (2, 0)] else []⟩ :
        Graph).adj 0, 0 ≤ p.2)
    ∧ ¬ ((louvainScanCommunities false [] (fun _ => 0)
          ⟨6, [0], fun u => if u = 0 then [(1, 0), (2, 0)] else []⟩ 0
          (fun _ => 5)).1.Nodup
        ∧ ∀ c, c ∈ (louvainScanCommunities false [] (fun _ => 0)
            ⟨6, [0], fun u => if u = 0 then [(1, 0), (2, 0)] else []⟩ 0
            (fun _ => 5)).1
          ↔ (louvainScanCommunities false [] (fun _ => 0)
            ⟨6, [0], fun u => if u = 0 then [(1, 0), (2, 0)] else []⟩ 0
            (fun _ => 5)).2 c ≠ 0) := by
  constructor
  · decide
  · intro h
    have h1 := h.1
    have hvcs : (louvainScanCommunities false [] (fun _ => 0)
        ⟨6, [0], fun u => if u = 0 then [(1, 0), (2, 0)] else []⟩ 0
        (fun _ => 5)).1 = [5, 5] := by
      simp [louvainScanCommunities, louvainScanStep, Function.update_apply]
    rw [hvcs] at h1
    exact absurd h1 (by decide)

/-- C8: `louvainLookupCommunities` preserves the length of the
membership vector and replaces each entry `a[i]` by `vcom[a[i]]`;
composing it over a stack of levels maps each leaf entry through every
level in turn. -/
theorem lookupCommunities_spec (a vcom : List Nat)
    (levels : List (List Nat)) (hv : ∀ v ∈ a, v < vcom.length) :
    (louvainLookupCommunities a vcom).length = a.length
    ∧ (∀ i, i < a.length →
        (louvainLookupCommunities a vcom).getD i 0
          = vcom.getD (a.getD i 0) 0)
    ∧ (louvainLookupStack a levels).length = a.length
    ∧ (∀ i, i < a.length →
        (louvainLookupStack a levels).getD i 0
          = levels.foldl (fun v vc => vc.getD v 0) (a.getD i 0)) := by
  have hlen : ∀ (b : List Nat) (vc : List Nat),
      (louvainLookupCommunities b vc).length = b.length :=
    fun b vc => List.length_map b _
  have hget : ∀ (b vc : List Nat) (i : Nat), i < b.length →
      (louvainLookupCommunities b vc).getD i 0 = vc.getD (b.getD i 0) 0 := by
    intro b vc i hi
    have hb : b.getD i 0 = b.get ⟨i, hi⟩ := by
      rw [List.getD_eq_getElem?_getD, List.getElem?_eq_getElem hi]
      rfl
    unfold louvainLookupCommunities
    rw [List.getD_eq_getElem?_getD, List.getElem?_map,
      List.getElem?_eq_getElem hi, hb]
    rfl
  have hstacklen : ∀ (lv : List (List Nat)) (b : List Nat),
      (louvainLookupStack b lv).length = b.length := by
    intro lv
    induction lv with
    | nil => intro b; rfl
    | cons vc lv ih =>
      intro b
      have : louvainLookupStack b (vc :: lv)
          = louvainLookupStack (louvainLookupCommunities b vc) lv := rfl
      rw [this, ih, hlen]
  have hstackget : ∀ (lv : List (List Nat)) (b : List Nat) (i : Nat),
      i < b.length →
      (louvainLookupStack b lv).getD i 0
        = lv.foldl (fun v vc => vc.getD v 0) (b.getD i 0) := by
    intro lv
    induction lv with
    | nil => intro b i _; rfl
    | cons vc lv ih =>
      intro b i hi
      have hrw : louvainLookupStack b (vc :: lv)
          = louvainLookupStack (louvainLookupCommunities b vc) lv := rfl
      rw [hrw, ih (louvainLookupCommunities b vc) i (by rw [hlen]; exact hi),
        hget b vc i hi]
      rfl
  exact ⟨hlen a vcom, fun i hi => hget a vcom i hi, hstacklen levels a,
    fun i hi => hstackget levels a i hi⟩

/-- Witness for C8 at a concrete input: `a = [0, 1]`, one level mapping
both leaves to community 1, and a second level mapping 1 to 0. -/
theorem lookupCommunities_spec_witness :
    (louvainLookupCommunities [0, 1] [1, 1]).length = [0, 1].length
    ∧ (∀ i, i < [0, 1].length →
        (louvainLookupCommunities [0, 1] [1, 1]).getD i 0
          = [1, 1].getD ([0, 1].getD i 0) 0)
    ∧ (louvainLookupStack [0, 1] [[1, 1], [0, 0]]).length = [0, 1].length
    ∧ (∀ i, i < [0, 1].length →
        (louvainLookupStack [0, 1] [[1, 1], [0, 0]]).getD i 0
          = [[1, 1], [0, 0]].foldl (fun v vc => vc.getD v 0)
              ([0, 1].getD i 0)) :=
  lookupCommunities_spec [0, 1] [1, 1] [[1, 1], [0, 0]] (by decide)

lemma sweepState_shift (x : Graph) (vtot : Nat → ℚ) (M R : ℚ)
    (s : MoveState) (k : Nat) :
    sweepState x vtot M R (louvainMoveSweep x vtot M R s).1 k
      = sweepState x vtot M R s (k + 1) := by
  induction k with
  | zero => rfl
  | succ k ih => simp only [sweepState, ih]

lemma sweepEl_shift (x : Graph) (vtot : Nat → ℚ) (M R : ℚ)
    (s : MoveState) (k : Nat) :
    sweepEl x vtot M R (louvainMoveSweep x vtot M R s).1 k
      = sweepEl x vtot M R s (k + 1) := by
  rw [sweepEl, sweepEl, sweepState_shift]

lemma louvainMoveLoop_spec (x : Graph) (vtot : Nat → ℚ) (M R E : ℚ)
    (L : Nat) : ∀ s : MoveState,
    (louvainMoveLoop x vtot M R E s L).2 ≤ L
    ∧ (louvainMoveLoop x vtot M R E s L).1
        = sweepState x vtot M R s (louvainMoveLoop x vtot M R E s L).2
    ∧ (0 < L → 0 < (louvainMoveLoop x vtot M R E s L).2)
    ∧ (∀ k, k + 1 < (louvainMoveLoop x vtot M R E s L).2 →
        E < sweepEl x vtot M R s k)
    ∧ ((louvainMoveLoop x vtot M R E s L).2 < L →
        sweepEl x vtot M R s ((louvainMoveLoop x vtot M R E s L).2 - 1) ≤ E) := by
  induction L with
  | zero =>
    intro s
    have h0 : louvainMoveLoop x vtot M R E s 0 = (s, 0) := rfl
    rw [h0]
    refine ⟨le_rfl, rfl, fun h => absurd h (lt_irrefl 0), ?_, ?_⟩
    · intro k hk
      exact absurd hk (by omega)
    · intro h
      exact absurd h (by omega)
  | succ L ih =>
    intro s
    by_cases hel : (louvainMoveSweep x vtot M R s).2 ≤ E
    · have hloop : louvainMoveLoop x vtot M R E s (L + 1)
          = ((louvainMoveSweep x vtot M R s).1, 1) := by
        rw [louvainMoveLoop, if_pos hel]
      rw [hloop]
      refine ⟨by omega, rfl, fun _ => Nat.one_pos, ?_, ?_⟩
      · intro k hk
        exact absurd hk (by omega)
      · intro _
        exact hel
    · have hloop : louvainMoveLoop x vtot M R E s (L + 1)
          = ((louvainMoveLoop x vtot M R E (louvainMoveSweep x vtot M R s).1 L).1,
             (louvainMoveLoop x vtot M R E (louvainMoveSweep x vtot M R s).1 L).2 + 1) := by
        rw [louvainMoveLoop, if_neg hel]
      rw [hloop]
      obtain ⟨ih1, ih2, ih3, ih4, ih5⟩ := ih (louvainMoveSweep x vtot M R s).1
      refine ⟨by omega, ?_, fun _ => by omega, ?_, ?_⟩
      · rw [ih2, sweepState_shift]
      · intro k hk
        match k with
        | 0 =>
          have : sweepEl x vtot M R s 0 = (louvainMoveSweep x vtot M R s).2 := rfl
          rw [this]
          exact lt_of_not_le hel
        | j + 1 =>
          rw [← sweepEl_shift]
          exact ih4 j (by omega)
      · intro hlt
        have hn : 0 < (louvainMoveLoop x vtot M R E
            (louvainMoveSweep x vtot M R s).1 L).2 := ih3 (by omega)
        have h5 := ih5 (by omega)
        rw [sweepEl_shift] at h5
        have heq : (louvainMoveLoop x vtot M R E
              (louvainMoveSweep x vtot M R s).1 L).2 - 1 + 1
            = (louvainMoveLoop x vtot M R E
              (louvainMoveSweep x vtot M R s).1 L).2 := by omega
        rw [heq] at h5
        have harg : (louvainMoveLoop x vtot M R E
              (louvainMoveSweep x vtot M R s).1 L).2 + 1 - 1
            = (louvainMoveLoop x vtot M R E
              (louvainMoveSweep x vtot M R s).1 L).2 := by omega
        rw [harg]
        exact h5

/-- C4: `louvainMove` performs at most `L` full sweeps, returns the
number of completed sweeps (its final state is exactly that many sweeps
applied to the initial state), runs at least one sweep when `L > 0`,
continues only past sweeps whose accumulated best-gain sum `el` exceeds
the tolerance `E`, and whenever it stops before exhausting `L` the last
sweep's `el` is at most `E`. -/
theorem louvainMove_iterations_spec (vcom : Nat → Nat) (ctot : Nat → ℚ)
    (vcs : List Nat) (vcout : Nat → ℚ) (x : Graph) (vtot : Nat → ℚ)
    (M R E : ℚ) (L : Nat) :
    (louvainMove vcom ctot vcs vcout x vtot M R E L).2 ≤ L
    ∧ (louvainMove vcom ctot vcs vcout x vtot M R E L).1
        = sweepState x vtot M R ⟨vcom, ctot, vcs, vcout⟩
            (louvainMove vcom ctot vcs vcout x vtot M R E L).2
    ∧ (0 < L → 0 < (louvainMove vcom ctot vcs vcout x vtot M R E L).2)
    ∧ (∀ k, k + 1 < (louvainMove vcom ctot vcs vcout x vtot M R E L).2 →
        E < sweepEl x vtot M R ⟨vcom, ctot, vcs, vcout⟩ k)
    ∧ ((louvainMove vcom ctot vcs vcout x vtot M R E L).2 < L →
        sweepEl x vtot M R ⟨vcom, ctot, vcs, vcout⟩
            ((louvainMove vcom ctot vcs vcout x vtot M R E L).2 - 1) ≤ E) :=
  louvainMoveLoop_spec x vtot M R E L ⟨vcom, ctot, vcs, vcout⟩

/-- Total weight of the entries of an adjacency list aimed at `v`. -/
def targetWeight (es : List (Nat × ℚ)) (v : Nat) : ℚ :=
  ((es.filter (fun p => p.1 = v)).map Prod.snd).sum

lemma edgeWeight_eq_targetWeight (g : Graph) (u v : Nat) :
    edgeWeight g u v = targetWeight (g.adj u) v := rfl

lemma targetWeight_nil (v : Nat) : targetWeight [] v = 0 := rfl

lemma targetWeight_cons (e : Nat × ℚ) (es : List (Nat × ℚ)) (v : Nat) :
    targetWeight (e :: es) v
      = (if e.1 = v then e.2 else 0) + targetWeight es v := by
  unfold targetWeight
  by_cases h : e.1 = v
  · rw [List.filter_cons_of_pos (by simpa using h), List.map_cons,
      List.sum_cons, if_pos h]
  · rw [List.filter_cons_of_neg (by simpa using h), if_neg h, zero_add]

lemma targetWeight_append (l1 l2 : List (Nat × ℚ)) (v : Nat) :
    targetWeight (l1 ++ l2) v = targetWeight l1 v + targetWeight l2 v := by
  unfold targetWeight
  rw [List.filter_append, List.map_append, List.sum_append]

lemma targetWeight_of_not_mem (es : List (Nat × ℚ)) (v : Nat)
    (hv : v ∉ es.map Prod.fst) : targetWeight es v = 0 := by
  induction es with
  | nil => rfl
  | cons e es ih =>
    rw [targetWeight_cons,
      if_neg (fun h => hv (by rw [List.map_cons]; exact List.mem_cons.2 (Or.inl h.symm))),
      ih (fun h => hv (by rw [List.map_cons]; exact List.mem_cons.2 (Or.inr h))),
      zero_add]

lemma targetWeight_map_graph (m : List Nat) (hnd : m.Nodup) (f : Nat → ℚ)
    (v : Nat) :
    targetWeight (m.map (fun d => (d, f d))) v = if v ∈ m then f v else 0 := by
  induction m with
  | nil => rfl
  | cons a m ih =>
    rw [List.map_cons, targetWeight_cons, ih (List.nodup_cons.1 hnd).2]
    by_cases hav : a = v
    · subst hav
      rw [if_pos rfl, if_pos (List.mem_cons_self a m),
        if_neg (List.nodup_cons.1 hnd).1]
      ring
    · rw [if_neg hav]
      by_cases hvm : v ∈ m
      · rw [if_pos hvm, if_pos (List.mem_cons_of_mem a hvm), zero_add]
      · rw [if_neg hvm,
          if_neg (fun hm => (List.mem_cons.1 hm).elim (fun h => hav h.symm) hvm)]
        ring

lemma clear_fold_apply (vcs : List Nat) (vcout : Nat → ℚ) (e : Nat) :
    (vcs.foldl (fun vo c => Function.update vo c 0) vcout) e
      = if e ∈ vcs then 0 else vcout e := by
  induction vcs generalizing vcout with
  | nil => simp
  | cons c vcs ih =>
    rw [List.foldl_cons, ih]
    by_cases hm : e ∈ vcs
    · rw [if_pos hm, if_pos (List.mem_cons_of_mem c hm)]
    · rw [if_neg hm, Function.update_apply]
      by_cases hec : e = c
      · rw [if_pos hec, if_pos (List.mem_cons.2 (Or.inl hec))]
      · rw [if_neg hec,
          if_neg (fun hm2 => (List.mem_cons.1 hm2).elim hec hm)]

lemma louvainClearScan_all_zero (vcs : List Nat) (vcout : Nat → ℚ)
    (h : ∀ c, vcout c ≠ 0 → c ∈ vcs) (e : Nat) :
    (louvainClearScan vcs vcout).2 e = 0 := by
  show (vcs.foldl (fun vo c => Function.update vo c 0) vcout) e = 0
  rw [clear_fold_apply]
  by_cases hm : e ∈ vcs
  · rw [if_pos hm]
  · rw [if_neg hm]
    by_contra hne
    exact hm (h e hne)

lemma communityVertices_apply (x : Graph) (vcom : Nat → Nat) (c : Nat) :
    louvainCommunityVertices x vcom c
      = x.verts.filter (fun u => decide (vcom u = c)) := by
  unfold louvainCommunityVertices
  suffices h : ∀ (l : List Nat) (a0 : Nat → List Nat),
      (l.foldl (fun a u => Function.update a (vcom u) (a (vcom u) ++ [u])) a0) c
        = a0 c ++ l.filter (fun u => decide (vcom u = c)) by
    simpa using h x.verts (fun _ => [])
  intro l
  induction l with
  | nil => intro a0; simp
  | cons u l ih =>
    intro a0
    rw [List.foldl_cons, ih]
    by_cases hu : vcom u = c
    · rw [List.filter_cons_of_pos (by simpa using hu), Function.update_apply,
        if_pos hu.symm, hu, List.append_assoc, List.singleton_append]
    · rw [List.filter_cons_of_neg (by simpa using hu), Function.update_apply,
        if_neg (fun h => hu h.symm)]

lemma range_filter_eq (S c : Nat) :
    (List.range S).filter (fun u => decide (u = c))
      = if c < S then [c] else [] := by
  induction S with
  | zero => simp
  | succ S ih =>
    have hr : List.range (S + 1) = List.range S ++ [S] := List.range_succ S
    rw [hr, List.filter_append, ih]
    by_cases hc : c < S
    · rw [if_pos hc, if_pos (Nat.lt_succ_of_lt hc),
        List.filter_cons_of_neg (by simp; omega)]
      rfl
    · rw [if_neg hc]
      by_cases hcS : S = c
      · rw [List.filter_cons_of_pos (by simpa using hcS), hcS,
          if_pos (by omega)]
        rfl
      · rw [List.filter_cons_of_neg (by simpa using hcS),
          if_neg (by omega)]
        rfl

lemma Graph.addVertex_verts (g : Graph) (u : Nat) :
    (g.addVertex u).verts
      = if u ∈ g.verts then g.verts else g.verts ++ [u] := rfl

lemma Graph.addVertex_adj (g : Graph) (u : Nat) :
    (g.addVertex u).adj = g.adj := rfl

lemma Graph.addEdge_verts (g : Graph) (u v : Nat) (w : ℚ) :
    (g.addEdge u v w).verts = g.verts := rfl

lemma Graph.addEdge_adj (g : Graph) (u v : Nat) (w : ℚ) (e : Nat) :
    (g.addEdge u v w).adj e
      = if e = u then g.adj u ++ [(v, w)] else g.adj e := by
  show Function.update g.adj u (g.adj u ++ [(v, w)]) e = _
  exact Function.update_apply g.adj u (g.adj u ++ [(v, w)]) e

lemma scan_fold_self (u : Nat) (vcom : Nat → Nat) (es : List (Nat × ℚ))
    (hid : ∀ p ∈ es, vcom p.1 = p.1)
    (hnd : (es.map Prod.fst).Nodup) :
    ∀ acc : List Nat × (Nat → ℚ), (∀ p ∈ es, acc.2 p.1 = 0) →
      (es.foldl (louvainScanStep true u vcom) acc).1
          = acc.1 ++ es.map Prod.fst
      ∧ ∀ e, (es.foldl (louvainScanStep true u vcom) acc).2 e
          = acc.2 e + targetWeight es e := by
  induction es with
  | nil =>
    intro acc _
    refine ⟨(List.append_nil acc.1).symm, fun e => ?_⟩
    rw [targetWeight_nil, add_zero]
    rfl
  | cons e es ih =>
    intro acc hacc
    have hide : vcom e.1 = e.1 := hid e (List.mem_cons_self e es)
    have hz : acc.2 e.1 = 0 := hacc e (List.mem_cons_self e es)
    have hmc : e.1 ∉ es.map Prod.fst ∧ (es.map Prod.fst).Nodup := by
      rw [List.map_cons, List.nodup_cons] at hnd
      exact hnd
    have hnotmem := hmc.1
    have hstep : louvainScanStep true u vcom acc e
        = (acc.1 ++ [e.1], Function.update acc.2 e.1 (acc.2 e.1 + e.2)) := by
      simp only [louvainScanStep]
      rw [hide]
      rw [if_neg (show ¬(true = false ∧ u = e.1) by simp), if_pos hz]
    rw [List.foldl_cons, hstep]
    have hacc' : ∀ p ∈ es, (Function.update acc.2 e.1 (acc.2 e.1 + e.2)) p.1 = 0 := by
      intro p hp
      rw [Function.update_apply,
        if_neg (fun (hh : p.1 = e.1) =>
          hnotmem (hh ▸ List.mem_map_of_mem Prod.fst hp))]
      exact hacc p (List.mem_cons_of_mem e hp)
    obtain ⟨ih1, ih2⟩ := ih (fun p hp => hid p (List.mem_cons_of_mem e hp))
      hmc.2
      (acc.1 ++ [e.1], Function.update acc.2 e.1 (acc.2 e.1 + e.2)) hacc'
    refine ⟨?_, fun e' => ?_⟩
    · rw [ih1]
      dsimp only
      rw [List.map_cons, List.append_assoc, List.singleton_append]
    · rw [ih2 e', targetWeight_cons]
      dsimp only
      rw [Function.update_apply]
      by_cases he : e' = e.1
      · rw [if_pos he, if_pos he.symm, he, hz]
        ring
      · rw [if_neg he, if_neg (fun hh => he hh.symm)]
        ring

lemma addEdge_fold_spec (c : Nat) (f : Nat → ℚ) (l : List Nat) :
    ∀ a : Graph,
      (l.foldl (fun (g : Graph) d => g.addEdge c d (f d)) a).verts = a.verts
      ∧ (∀ e, e ≠ c →
          (l.foldl (fun (g : Graph) d => g.addEdge c d (f d)) a).adj e
            = a.adj e)
      ∧ (l.foldl (fun (g : Graph) d => g.addEdge c d (f d)) a).adj c
          = a.adj c ++ l.map (fun d => (d, f d)) := by
  induction l with
  | nil =>
    intro a
    exact ⟨rfl, fun e _ => rfl, (List.append_nil _).symm⟩
  | cons d l ih =>
    intro a
    rw [List.foldl_cons]
    obtain ⟨ih1, ih2, ih3⟩ := ih (a.addEdge c d (f d))
    refine ⟨?_, fun e he => ?_, ?_⟩
    · rw [ih1, Graph.addEdge_verts]
    · rw [ih2 e he, Graph.addEdge_adj, if_neg he]
    · rw [ih3, Graph.addEdge_adj, if_pos rfl, List.map_cons,
        List.append_assoc, List.singleton_append]

lemma aggregateStep_spec (x : Graph) (vcom : Nat → Nat)
    (comv : Nat → List Nat) (c : Nat) (st : Graph × List Nat × (Nat → ℚ))
    (hscr : ∀ e, st.2.2 e ≠ 0 → e ∈ st.2.1)
    (hcomv : comv c = [c])
    (hidc : ∀ p ∈ x.adj c, vcom p.1 = p.1)
    (hndc : ((x.adj c).map Prod.fst).Nodup)
    (hfresh : c ∉ st.1.verts) :
    (louvainAggregateStep x vcom comv st c).1.verts = st.1.verts ++ [c]
    ∧ (∀ e, e ≠ c →
        (louvainAggregateStep x vcom comv st c).1.adj e = st.1.adj e)
    ∧ (∀ v, targetWeight ((louvainAggregateStep x vcom comv st c).1.adj c) v
        = targetWeight (st.1.adj c) v + targetWeight (x.adj c) v)
    ∧ (∀ e, (louvainAggregateStep x vcom comv st c).2.2 e ≠ 0 →
        e ∈ (louvainAggregateStep x vcom comv st c).2.1) := by
  have hz : ∀ e, (louvainClearScan st.2.1 st.2.2).2 e = 0 :=
    louvainClearScan_all_zero st.2.1 st.2.2 hscr
  obtain ⟨hs1, hs2⟩ := scan_fold_self c vcom (x.adj c) hidc hndc
    (([] : List Nat), (louvainClearScan st.2.1 st.2.2).2)
    (fun p _ => hz p.1)
  have hstep : louvainAggregateStep x vcom comv st c
      = (((x.adj c).foldl (louvainScanStep true c vcom)
            (([] : List Nat), (louvainClearScan st.2.1 st.2.2).2)).1.foldl
            (fun (a : Graph) d => a.addEdge c d
              (((x.adj c).foldl (louvainScanStep true c vcom)
                (([] : List Nat), (louvainClearScan st.2.1 st.2.2).2)).2 d))
            (st.1.addVertex c),
         ((x.adj c).foldl (louvainScanStep true c vcom)
            (([] : List Nat), (louvainClearScan st.2.1 st.2.2).2)).1,
         ((x.adj c).foldl (louvainScanStep true c vcom)
            (([] : List Nat), (louvainClearScan st.2.1 st.2.2).2)).2) := by
    unfold louvainAggregateStep
    rw [hcomv]
    rfl
  rw [hstep]
  have hs2' : ∀ e, ((x.adj c).foldl (louvainScanStep true c vcom)
      (([] : List Nat), (louvainClearScan st.2.1 st.2.2).2)).2 e
      = targetWeight (x.adj c) e := by
    intro e
    rw [hs2 e]
    show (louvainClearScan st.2.1 st.2.2).2 e + targetWeight (x.adj c) e = _
    rw [hz e, zero_add]
  have hs1' : ((x.adj c).foldl (louvainScanStep true c vcom)
      (([] : List Nat), (louvainClearScan st.2.1 st.2.2).2)).1
      = (x.adj c).map Prod.fst := by
    rw [hs1]
    rfl
  obtain ⟨hf1, hf2, hf3⟩ := addEdge_fold_spec c
    (((x.adj c).foldl (louvainScanStep true c vcom)
      (([] : List Nat), (louvainClearScan st.2.1 st.2.2).2)).2)
    (((x.adj c).foldl (louvainScanStep true c vcom)
      (([] : List Nat), (louvainClearScan st.2.1 st.2.2).2)).1)
    (st.1.addVertex c)
  refine ⟨?_, ?_, ?_, ?_⟩
  · show (_ : Graph).verts = _
    rw [hf1, Graph.addVertex_verts, if_neg hfresh]
  · intro e he
    show (_ : Graph).adj e = _
    rw [hf2 e he, Graph.addVertex_adj]
  · intro v
    show targetWeight ((_ : Graph).adj c) v = _
    rw [hf3, Graph.addVertex_adj, targetWeight_append, hs1']
    have hmapped : ((x.adj c).map Prod.fst).map
        (fun d => (d, ((x.adj c).foldl (louvainScanStep true c vcom)
          (([] : List Nat), (louvainClearScan st.2.1 st.2.2).2)).2 d))
        = ((x.adj c).map Prod.fst).map
          (fun d => (d, targetWeight (x.adj c) d)) :=
      List.map_congr_left (fun d _ => by rw [hs2' d])
    rw [hmapped, targetWeight_map_graph _ hndc]
    by_cases hv : v ∈ (x.adj c).map Prod.fst
    · rw [if_pos hv]
    · rw [if_neg hv, targetWeight_of_not_mem (x.adj c) v hv]
  · intro e he
    show e ∈ ((x.adj c).foldl (louvainScanStep true c vcom)
      (([] : List Nat), (louvainClearScan st.2.1 st.2.2).2)).1
    rw [hs1']
    by_contra hnm
    have : targetWeight (x.adj c) e = 0 := targetWeight_of_not_mem _ _ hnm
    exact he (by rw [hs2' e] at *; exact this)

lemma aggregate_fold_spec (x : Graph) (vcom : Nat → Nat)
    (comv : Nat → List Nat) (cs : List Nat)
    (hcomv : ∀ c ∈ cs, comv c = [c])
    (hidc : ∀ c ∈ cs, ∀ p ∈ x.adj c, vcom p.1 = p.1)
    (hndc : ∀ c ∈ cs, ((x.adj c).map Prod.fst).Nodup)
    (hnd : cs.Nodup) :
    ∀ st : Graph × List Nat × (Nat → ℚ),
      (∀ e, st.2.2 e ≠ 0 → e ∈ st.2.1) →
      (∀ c ∈ cs, c ∉ st.1.verts) →
      (cs.foldl (louvainAggregateStep x vcom comv) st).1.verts
          = st.1.verts ++ cs
      ∧ (∀ e, e ∉ cs →
          (cs.foldl (louvainAggregateStep x vcom comv) st).1.adj e
            = st.1.adj e)
      ∧ (∀ c ∈ cs, ∀ v,
          targetWeight
            ((cs.foldl (louvainAggregateStep x vcom comv) st).1.adj c) v
            = targetWeight (st.1.adj c) v + targetWeight (x.adj c) v) := by
  induction cs with
  | nil =>
    intro st _ _
    exact ⟨(List.append_nil _).symm, fun e _ => rfl, fun c hc => absurd hc (by simp)⟩
  | cons c cs ih =>
    intro st hscr hfresh
    have hcnotcs : c ∉ cs := (List.nodup_cons.1 hnd).1
    obtain ⟨st1, st2, st3, st4⟩ := aggregateStep_spec x vcom comv c st hscr
      (hcomv c (List.mem_cons_self c cs))
      (hidc c (List.mem_cons_self c cs))
      (hndc c (List.mem_cons_self c cs))
      (hfresh c (List.mem_cons_self c cs))
    have hfresh' : ∀ c' ∈ cs, c' ∉ (louvainAggregateStep x vcom comv st c).1.verts := by
      intro c' hc'
      rw [st1, List.mem_append, List.mem_singleton]
      rintro (h | h)
      · exact hfresh c' (List.mem_cons_of_mem c hc') h
      · exact hcnotcs (h ▸ hc')
    obtain ⟨ih1, ih2, ih3⟩ := ih
      (fun c' hc' => hcomv c' (List.mem_cons_of_mem c hc'))
      (fun c' hc' => hidc c' (List.mem_cons_of_mem c hc'))
      (fun c' hc' => hndc c' (List.mem_cons_of_mem c hc'))
      (List.nodup_cons.1 hnd).2
      (louvainAggregateStep x vcom comv st c) st4 hfresh'
    rw [List.foldl_cons]
    refine ⟨?_, ?_, ?_⟩
    · rw [ih1, st1, List.append_assoc, List.singleton_append]
    · intro e he
      have hecs : e ∉ cs := fun h => he (List.mem_cons_of_mem c h)
      have hec : e ≠ c := fun h => he (List.mem_cons.2 (Or.inl h))
      rw [ih2 e hecs, st2 e hec]
    · intro c' hc' v
      rcases List.mem_cons.1 hc' with hcc | hccs
      · subst hcc
        rw [ih2 c' hcnotcs, st3 v]
      · have hc'c : c' ≠ c := fun h => hcnotcs (h ▸ hccs)
        rw [ih3 c' hccs v, st2 c' hc'c]

/-- C6 (amended: every key below the span is a live vertex, adjacency
lists are simple and stay within the span): aggregating with the
identity clustering reproduces the input graph — the same live vertex
list and, for every live `u` and every `v`, the same total edge weight
from `u` to `v`. -/
theorem aggregate_identity_round_trip (x : Graph) (vcom : Nat → Nat)
    (hverts : x.verts = List.range x.span)
    (hid : ∀ u ∈ x.verts, vcom u = u)
    (hadjnd : ∀ u ∈ x.verts, ((x.adj u).map Prod.fst).Nodup)
    (htarg : ∀ u ∈ x.verts, ∀ p ∈ x.adj u, p.1 ∈ x.verts) :
    (louvainAggregate x vcom).verts = x.verts
    ∧ ∀ u ∈ x.verts, ∀ v,
        edgeWeight (louvainAggregate x vcom) u v = edgeWeight x u v := by
  have haggr : louvainAggregate x vcom
      = ((List.range x.span).foldl
          (louvainAggregateStep x vcom (louvainCommunityVertices x vcom))
          (⟨0, [], fun _ => []⟩, [], fun _ => 0)).1 := rfl
  have hmemrange : ∀ c, c ∈ List.range x.span → c ∈ x.verts := by
    intro c hc
    rw [hverts]
    exact hc
  have hcomv : ∀ c ∈ List.range x.span,
      louvainCommunityVertices x vcom c = [c] := by
    intro c hc
    rw [communityVertices_apply]
    have hfc : x.verts.filter (fun u => decide (vcom u = c))
        = x.verts.filter (fun u => decide (u = c)) :=
      List.filter_congr (fun u hu => by rw [hid u hu])
    rw [hfc, hverts, range_filter_eq, if_pos (List.mem_range.1 hc)]
  have hidc : ∀ c ∈ List.range x.span, ∀ p ∈ x.adj c, vcom p.1 = p.1 := by
    intro c hc p hp
    exact hid p.1 (htarg c (hmemrange c hc) p hp)
  obtain ⟨h1, _h2, h3⟩ := aggregate_fold_spec x vcom
    (louvainCommunityVertices x vcom) (List.range x.span) hcomv hidc
    (fun c hc => hadjnd c (hmemrange c hc)) (List.nodup_range x.span)
    (⟨0, [], fun _ => []⟩, [], fun _ => 0)
    (fun e he => absurd rfl he)
    (fun c _ => by simp)
  constructor
  · rw [haggr, h1, hverts]
    rfl
  · intro u hu v
    rw [edgeWeight_eq_targetWeight, edgeWeight_eq_targetWeight, haggr,
      h3 u (by rw [← hverts]; exact hu) v]
    show targetWeight ((fun _ => ([] : List (Nat × ℚ))) u) v
        + targetWeight (x.adj u) v = targetWeight (x.adj u) v
    rw [targetWeight_nil, zero_add]

/-- Witness for C6 at a concrete input: a single vertex with a self-loop
of weight 2 (spec scenario 5), aggregated under the identity
clustering. -/
theorem aggregate_identity_round_trip_witness :
    (louvainAggregate ⟨1, [0], fun u => if u = 0 then [(0, 2)] else []⟩
        (fun u => u)).verts
      = (⟨1, [0], fun u => if u = 0 then [(0, 2)] else []⟩ : Graph).verts
    ∧ ∀ u ∈ (⟨1, [0], fun u => if u = 0 then [(0, 2)] else []⟩ : Graph).verts,
        ∀ v, edgeWeight
            (louvainAggregate ⟨1, [0], fun u => if u = 0 then [(0, 2)] else []⟩
              (fun u => u)) u v
          = edgeWeight ⟨1, [0], fun u => if u = 0 then [(0, 2)] else []⟩ u v :=
  aggregate_identity_round_trip
    ⟨1, [0], fun u => if u = 0 then [(0, 2)] else []⟩ (fun u => u)
    (by rfl) (fun u _ => rfl)
    (by intro u hu; rcases List.mem_singleton.1 hu with h; subst h; simp)
    (by intro u hu p hp
        rcases List.mem_singleton.1 hu with h
        subst h
        simp only [if_pos rfl] at hp
        rcases List.mem_singleton.1 hp with h2
        subst h2
        exact List.mem_singleton.2 rfl)

/-- Counterexample to C6 as stated: a graph whose only live vertex is 1
with span 2; aggregation with the identity clustering emits a vertex for
every key below the span, so the output's live vertices `[0, 1]` differ
from the input's `[1]`. -/
theorem aggregate_identity_not_same_verts :
    (louvainAggregate ⟨2, [1], fun _ => []⟩ (fun u => u)).verts = [0, 1]
    ∧ (louvainAggregate ⟨2, [1], fun _ => []⟩ (fun u => u)).verts
        ≠ (⟨2, [1], fun _ => []⟩ : Graph).verts := by
  have h : (louvainAggregate ⟨2, [1], fun _ => []⟩ (fun u => u)).verts
      = [0, 1] := by
    simp [louvainAggregate, louvainAggregateStep, louvainCommunityVertices,
      louvainClearScan, louvainScanCommunities, Graph.addVertex,
      List.range_succ, Function.update_apply]
  exact ⟨h, by rw [h]; decide⟩

/-- Concrete graph for the delta-screening check: edges 1–2 (weight 1),
1–3 (weight 1) and 3–4 (weight 1), stored in both directions. -/
def xC1 : Graph :=
  ⟨5, [0, 1, 2, 3, 4], fun u =>
    if u = 1 then [(2, 1), (3, 1)]
    else if u = 2 then [(1, 1)]
    else if u = 3 then [(1, 1), (4, 1)]
    else if u = 4 then [(3, 1)]
    else []⟩

/-- Clustering for `xC1`: 0 ↦ 0, 1 ↦ 1, and 2, 3, 4 ↦ 2. -/
def vcomC1 : Nat → Nat := fun u => min u 2

/-- Vertex weights of `xC1` (its degree sums). -/
def vtotC1 : Nat → ℚ := fun u =>
  if u = 1 then 2 else if u = 3 then 2 else if u = 0 then 0 else 1

/-- Community weights of `xC1` under `vcomC1`. -/
def ctotC1 : Nat → ℚ := fun c =>
  if c = 1 then 2 else if c = 2 then 4 else 0

/-- C1 evidence: for the insertion `(1, 3)`, the full scan plus
delta-modularity maximization picks community 2 (gain 2/9 > 0), whose
non-neighbor member 4 the claim therefore marks as affected; but the
code, which calls `louvainChooseCommunity` on never-scanned buffers,
always picks community 0, so the returned mask leaves vertex 4 (in the
best community 2) unmarked while marking vertex 0 (the sole member of
community 0, unrelated to the insertion). -/
theorem affectedVertices_insertion_marks_wrong_community :
    bestCommunityFullScan xC1 1 vcomC1 vtotC1 ctotC1 3 1 = (2, 2 / 9)
    ∧ vcomC1 4 = 2 ∧ (4 : Nat) ∉ (xC1.adj 1).map Prod.fst
    ∧ louvainAffectedVertices xC1 [] [(1, 3)] vcomC1 vtotC1 ctotC1 3 1 4
        = false
    ∧ vcomC1 0 = 0
    ∧ louvainAffectedVertices xC1 [] [(1, 3)] vcomC1 vtotC1 ctotC1 3 1 0
        = true := by
  refine ⟨?_, rfl, by decide, ?_, rfl, ?_⟩
  · norm_num [bestCommunityFullScan, louvainScanCommunities,
      louvainScanStep, louvainChooseCommunity, louvainChooseStep,
      deltaModularity, xC1, vcomC1, vtotC1, ctotC1, Function.update_apply]
  · norm_num [louvainAffectedVertices, louvainClearScan,
      louvainChooseCommunity, louvainChooseStep, xC1, vcomC1, vtotC1,
      ctotC1, Function.update_apply]
  · norm_num [louvainAffectedVertices, louvainClearScan,
      louvainChooseCommunity, louvainChooseStep, xC1, vcomC1, vtotC1,
      ctotC1, Function.update_apply]

end Louvain
